import Mathlib

/-!
Verification of `auto_doc_editor.py`, a mail-merge script that fills Word
templates from Excel rows.

Shallow embedding conventions:
* a Python scalar cell value is `PyVal` (`None`, `str`, `int`, `float`);
  Python floats are dyadic rationals, modelled as `ℚ`;
* a Word document is the list of its `<w:t>` text elements, in document
  traversal order (`document.element.body.iter(qn("w:t"))` yields them in
  exactly that order), each element being its text `String`;
* a worksheet is the list of its rows (`ws.iter_rows(values_only=True)`),
  each row a `List PyVal`;
* `re.sub`/`re.search` for the pattern `_{4,}` are modelled by first
  splitting a string into maximal runs of equal underscore-ness
  (`splitRuns`): a match of `_{4,}` is exactly a maximal run of underscores
  of length at least 4, and greedy `re.sub` rewrites each such whole run;
* fallible code (`raise KeyError`) is `Except String`; total Lean
  functions model the absence of runtime errors on the corresponding paths.
-/

/-- Python scalar values as they occur in worksheet cells and records. -/
inductive PyVal where
  | none
  | str (s : String)
  | int (n : Int)
  | float (q : ℚ)
deriving DecidableEq

/-- Decimal digits of the fractional part `num/den` (with `num < den`),
most significant first; `fuel` bounds the number of digits produced.
Python floats are dyadic rationals, whose decimal expansion terminates,
so with `fuel = den` no truncation occurs for values a float can hold. -/
def fracDigits : Nat → Nat → Nat → String
  | 0, _, _ => ""
  | fuel + 1, num, den =>
    if num = 0 then ""
    else String.singleton (Nat.digitChar (num * 10 / den)) ++ fracDigits fuel (num * 10 % den) den

/-- Python `str` of a float, modelled as the exact decimal expansion of the
rational value: integer part, a dot, then the fractional digits (`"...0"`
when the value is integral, as Python prints `str(2024.0) = "2024.0"`). -/
def pyFloatRepr (q : ℚ) : String :=
  let n := q.num.natAbs
  let sign := if q.num < 0 then "-" else ""
  sign ++ toString (n / q.den) ++ "." ++
    (if n % q.den = 0 then "0" else fracDigits q.den (n % q.den) q.den)

/-- Python `str` of a `PyVal`. -/
def pyStr : PyVal → String
  | .none => "None"
  | .str s => s
  | .int n => toString n
  | .float q => pyFloatRepr q

/-- Python `str.strip()`: remove leading and trailing whitespace. -/
def pyStrip (s : String) : String :=
  String.mk ((s.data.dropWhile Char.isWhitespace).reverse.dropWhile Char.isWhitespace).reverse

/-- `_format_value` from `auto_doc_editor.py`: `None` becomes `""`, a float
that `is_integer()` becomes `str(int(value))`, anything else `str(value)`.
A rational is the value of an integral float exactly when its denominator
is 1, and then `int(value)` is its numerator. -/
def _format_value : PyVal → String
  | .none => ""
  | .float q => if q.den = 1 then toString q.num else pyFloatRepr q
  | v => pyStr v

/-- `PLACEHOLDER` from `auto_doc_editor.py`. -/
def PLACEHOLDER : String := "____"

/-- Split a character list into maximal runs of characters agreeing on
underscore-ness; `fuel ≥ length` makes this total structural recursion. -/
def splitRunsF : Nat → List Char → List (List Char)
  | 0, _ => []
  | _ + 1, [] => []
  | fuel + 1, c :: cs =>
    (c :: cs.takeWhile (fun d => (d == '_') == (c == '_')))
      :: splitRunsF fuel (cs.dropWhile (fun d => (d == '_') == (c == '_')))

/-- Maximal runs of a character list (underscore runs and non-underscore
runs, alternating, concatenating back to the original list). -/
def splitRuns (cs : List Char) : List (List Char) :=
  splitRunsF cs.length cs

/-- A group is a `RE_PLACEHOLDER` match (`_{4,}`) iff it is an underscore
run of length at least 4. -/
def isPlaceholderRun (g : List Char) : Bool :=
  (g.headD ' ' == '_') && decide (4 ≤ g.length)

/-- Number of `RE_PLACEHOLDER` matches in one text element. -/
def textTokens (s : String) : Nat :=
  (splitRuns s.data).countP isPlaceholderRun

/-- Models `RE_PLACEHOLDER.search(text)` succeeding. -/
def hasPlaceholder (s : String) : Bool :=
  (splitRuns s.data).any isPlaceholderRun

/-- Total number of placeholder tokens in a document, in traversal order. -/
def docNumTokens (doc : List String) : Nat :=
  (doc.map textTokens).sum

/-- The regex substitution of `replace_placeholders._sub` over the maximal
runs of one text element: each `_{4,}` match is rewritten to
`_format_value(next(rep_iter, PLACEHOLDER))`, every other run is kept;
returns the rewritten text and the values not yet consumed. -/
def subGroups : List PyVal → List (List Char) → String × List PyVal
  | vals, [] => ("", vals)
  | vals, g :: gs =>
    if isPlaceholderRun g then
      match vals with
      | [] =>
        let r := subGroups [] gs
        (_format_value (PyVal.str PLACEHOLDER) ++ r.1, r.2)
      | v :: vs =>
        let r := subGroups vs gs
        (_format_value v ++ r.1, r.2)
    else
      let r := subGroups vals gs
      (String.mk g ++ r.1, r.2)

/-- `RE_PLACEHOLDER.sub` on one text element, threading the value iterator. -/
def subText (vals : List PyVal) (s : String) : String × List PyVal :=
  subGroups vals (splitRuns s.data)

/-- The loop of `replace_placeholders`: walk the text elements in traversal
order; an element on which `RE_PLACEHOLDER.search` succeeds is rewritten by
`_sub`, any other element is left untouched; the value iterator is threaded
through the whole document. -/
def replaceDocAux : List PyVal → List String → List String × List PyVal
  | vals, [] => ([], vals)
  | vals, s :: rest =>
    let p := if hasPlaceholder s then subText vals s else (s, vals)
    let r := replaceDocAux p.2 rest
    (p.1 :: r.1, r.2)

/-- `replace_placeholders doc replacements`: the document after filling. -/
def replace_placeholders (doc : List String) (vals : List PyVal) : List String :=
  (replaceDocAux vals doc).1

/-- The record values `replace_placeholders` never consumed (the state of
`rep_iter` when the traversal ends). -/
def unusedValues (doc : List String) (vals : List PyVal) : List PyVal :=
  (replaceDocAux vals doc).2

/-- Specification-side filler, written after the spec's words: replace the
`i`-th placeholder token of the document (counting in document traversal
order, starting at index `i₀`) by `f i`, leaving all other text unchanged.
Returns the rewritten runs and the next token index. -/
def fillGroups (f : Nat → String) : Nat → List (List Char) → String × Nat
  | i, [] => ("", i)
  | i, g :: gs =>
    if isPlaceholderRun g then
      let r := fillGroups f (i + 1) gs
      (f i ++ r.1, r.2)
    else
      let r := fillGroups f i gs
      (String.mk g ++ r.1, r.2)

/-- Specification-side filler over a whole document, threading the global
token index through the text elements in traversal order. -/
def fillDoc (f : Nat → String) : Nat → List String → List String × Nat
  | i, [] => ([], i)
  | i, s :: rest =>
    let p := fillGroups f i (splitRuns s.data)
    let r := fillDoc f p.2 rest
    (p.1 :: r.1, r.2)

/-- Replace the `i`-th placeholder token (document traversal order, from 0)
of `doc` by `f i`. This definition follows the spec's wording and is the
yardstick the implementation is compared against. -/
def fillTokens (f : Nat → String) (doc : List String) : List String :=
  (fillDoc f 0 doc).1

/-- `REQUIRED_HEADERS` from `auto_doc_editor.py`. -/
def REQUIRED_HEADERS : List String :=
  ["שם העסק שם", "עיר", "כתובת", "סכום", "שנים"]

/-- One header-scan cell: `str(c).strip() if c is not None else ""`. -/
def cellStr : PyVal → String
  | .none => ""
  | v => pyStrip (pyStr v)

/-- `[cells.index(h) for h in hs]` inside `try`: the first index of each
name, `none` as soon as any `cells.index` raises `ValueError`. -/
def lookupAll (cells : List String) : List String → Option (List Nat)
  | [] => some []
  | h :: hs =>
    match cells.findIdx? (· == h), lookupAll cells hs with
    | some i, some is => some (i :: is)
    | _, _ => none

/-- Resolve all required headers against one worksheet row. -/
def headerIdxs (row : List PyVal) : Option (List Nat) :=
  lookupAll (row.map cellStr) REQUIRED_HEADERS

/-- The `KeyError` message of `_find_header_indexes`: it joins the whole
`REQUIRED_HEADERS` list, whatever subset was actually absent. -/
def missingColumnsMsg : String :=
  "Missing columns: " ++ String.intercalate ", " REQUIRED_HEADERS

/-- `_find_header_indexes`: scan rows in order; the first row whose
stripped cells contain every required header name yields the column
indexes and the remaining rows; if no row matches, raise `KeyError`. -/
def _find_header_indexes : List (List PyVal) → Except String (List Nat × List (List PyVal))
  | [] => .error missingColumnsMsg
  | row :: rest =>
    match headerIdxs row with
    | some idxs => .ok (idxs, rest)
    | none => _find_header_indexes rest

/-- `[row[idx] if idx < len(row) else None for idx in indexes]`. -/
def resolveRow (idxs : List Nat) (row : List PyVal) : List PyVal :=
  idxs.map (fun i => row.getD i PyVal.none)

/-- One iteration of the `process_documents` loop fused with
`_generate_document`: the task submitted for a row, as the produced
document's file name and filled text elements, or `none` when no document
is generated for the row. The values handed to `replace_placeholders` are
pre-formatted strings, exactly as in `_generate_document`. -/
def rowTask (template : List String) (idxs : List Nat) (row : List PyVal) :
    Option (String × List String) :=
  let values := resolveRow idxs row
  if values.any (fun v => decide (v ≠ PyVal.none)) then
    match values with
    | [] => Option.none
    | v0 :: _ =>
      some (_format_value v0 ++ ".docx",
        replace_placeholders template (values.map (fun v => PyVal.str (_format_value v))))
  else Option.none

/-- `process_documents` without its filesystem glue: resolve the headers,
then generate one document per qualifying data row. -/
def process_documents (template : List String) (rows : List (List PyVal)) :
    Except String (List (String × List String)) :=
  match _find_header_indexes rows with
  | .error e => .error e
  | .ok (idxs, dataRows) => .ok (dataRows.filterMap (rowTask template idxs))

/-- The string the implementation substitutes for the `j`-th placeholder
token: the formatted `j`-th record value while values remain, and
`_format_value` of the literal `PLACEHOLDER` default of
`next(rep_iter, PLACEHOLDER)` once they are exhausted. -/
def tokenValue (V : List PyVal) (j : Nat) : String :=
  _format_value (V.getD j (PyVal.str PLACEHOLDER))

/-- The rational value of the Python float `2024.0` (an integral float). -/
def sampleIntegralFloat : ℚ := ⟨2024, 1, by decide, by decide⟩

/-- The rational value of the Python float `2024.5` (a non-integral float). -/
def sampleFractionalFloat : ℚ := ⟨4049, 2, by decide, by decide⟩

theorem splitRunsF_join :
    ∀ (fuel : Nat) (cs : List Char), cs.length ≤ fuel → (splitRunsF fuel cs).flatten = cs := by
  intro fuel
  induction fuel with
  | zero =>
    intro cs h
    have hnil : cs = [] := List.eq_nil_of_length_eq_zero (Nat.le_zero.mp h)
    subst hnil; rfl
  | succ n ih =>
    intro cs h
    match cs with
    | [] => rfl
    | c :: cs' =>
      have hlen : (cs'.dropWhile (fun d => (d == '_') == (c == '_'))).length ≤ n := by
        have h1 := (List.dropWhile_sublist (l := cs') (p := fun d => (d == '_') == (c == '_'))).length_le
        have h2 : cs'.length ≤ n := by simpa using Nat.le_of_succ_le_succ h
        exact le_trans h1 h2
      simp only [splitRunsF, List.flatten_cons, ih _ hlen, List.cons_append,
        List.takeWhile_append_dropWhile]

theorem splitRuns_join (cs : List Char) : (splitRuns cs).flatten = cs :=
  splitRunsF_join cs.length cs le_rfl

theorem fillGroups_snd (f : Nat → String) :
    ∀ (gs : List (List Char)) (i : Nat),
      (fillGroups f i gs).2 = i + gs.countP isPlaceholderRun := by
  intro gs
  induction gs with
  | nil => intro i; simp [fillGroups]
  | cons g gs ih =>
    intro i
    by_cases hg : isPlaceholderRun g = true
    · simp only [fillGroups, hg, if_true, ih (i + 1), List.countP_cons, hg]
      omega
    · simp only [fillGroups, hg, if_false, ih i, List.countP_cons]
      simp [hg]

theorem fillGroups_noTok (f : Nat → String) :
    ∀ (gs : List (List Char)) (i : Nat), gs.countP isPlaceholderRun = 0 →
      fillGroups f i gs = (String.mk gs.flatten, i) := by
  intro gs
  induction gs with
  | nil => intro i _; rfl
  | cons g gs ih =>
    intro i h
    rw [List.countP_cons] at h
    have hg : isPlaceholderRun g = false := by
      cases hgb : isPlaceholderRun g
      · rfl
      · rw [hgb] at h; simp at h
    have hgs : gs.countP isPlaceholderRun = 0 := by
      rw [hg] at h; simpa using h
    simp [fillGroups, hg, ih i hgs, List.flatten_cons]
    rfl

theorem textTokens_eq_zero_of_not_has (s : String) (h : hasPlaceholder s = false) :
    (splitRuns s.data).countP isPlaceholderRun = 0 := by
  rw [List.countP_eq_zero]
  intro g hg
  rw [hasPlaceholder, List.any_eq_false] at h
  exact h g hg

theorem subGroups_eq_fillGroups (V : List PyVal) :
    ∀ (gs : List (List Char)) (i : Nat),
      subGroups (V.drop i) gs =
        ((fillGroups (tokenValue V) i gs).1, V.drop ((fillGroups (tokenValue V) i gs).2)) := by
  intro gs
  induction gs with
  | nil => intro i; rfl
  | cons g gs ih =>
    intro i
    by_cases hg : isPlaceholderRun g = true
    · rcases hV : V.drop i with _ | ⟨v, vs⟩
      · have hle : V.length ≤ i := List.drop_eq_nil_iff.mp hV
        have h1 : V.drop (i + 1) = [] := List.drop_eq_nil_iff.mpr (Nat.le_succ_of_le hle)
        have hgetD : V.getD i (PyVal.str PLACEHOLDER) = PyVal.str PLACEHOLDER :=
          List.getD_eq_default _ _ hle
        have ih1 := ih (i + 1)
        rw [h1] at ih1
        simp only [subGroups, fillGroups, hg, if_true, hV, ih1, tokenValue, hgetD]
      · have hi : i < V.length := by
          by_contra hc
          push_neg at hc
          rw [List.drop_eq_nil_iff.mpr hc] at hV
          exact absurd hV (by simp)
        have hdrop := List.drop_eq_getElem_cons hi
        rw [hV] at hdrop
        have hv : v = V[i] := by
          have := hdrop.symm
          rw [List.cons.injEq] at this
          exact this.1.symm
        have hvs : vs = V.drop (i + 1) := by
          have := hdrop.symm
          rw [List.cons.injEq] at this
          exact this.2.symm
        have hval : tokenValue V i = _format_value v := by
          rw [tokenValue, List.getD_eq_getElem _ _ hi, hv]
        simp only [subGroups, fillGroups, hg, if_true, hV, hvs, ih (i + 1), hval]
    · simp [subGroups, fillGroups, hg, ih i]

theorem fillDoc_snd (f : Nat → String) :
    ∀ (doc : List String) (i : Nat), (fillDoc f i doc).2 = i + docNumTokens doc := by
  intro doc
  induction doc with
  | nil => intro i; simp [fillDoc, docNumTokens]
  | cons s rest ih =>
    intro i
    simp only [fillDoc, ih, fillGroups_snd, docNumTokens, List.map_cons, List.sum_cons, textTokens]
    omega

theorem replaceDocAux_eq_fillDoc (V : List PyVal) :
    ∀ (doc : List String) (i : Nat),
      replaceDocAux (V.drop i) doc =
        ((fillDoc (tokenValue V) i doc).1, V.drop ((fillDoc (tokenValue V) i doc).2)) := by
  intro doc
  induction doc with
  | nil => intro i; rfl
  | cons s rest ih =>
    intro i
    by_cases hs : hasPlaceholder s = true
    · have hsub := subGroups_eq_fillGroups V (splitRuns s.data) i
      simp only [replaceDocAux, fillDoc, hs, if_true, subText, hsub,
        ih ((fillGroups (tokenValue V) i (splitRuns s.data)).2)]
    · have h0 := textTokens_eq_zero_of_not_has s (Bool.not_eq_true _ ▸ hs)
      have hfill := fillGroups_noTok (tokenValue V) (splitRuns s.data) i h0
      have hjoin : String.mk (splitRuns s.data).flatten = s := by
        rw [splitRuns_join]
      simp [replaceDocAux, fillDoc, hs, hfill, hjoin, ih i]

theorem replace_placeholders_eq_fillTokens (doc : List String) (vals : List PyVal) :
    replace_placeholders doc vals = fillTokens (tokenValue vals) doc := by
  have h := replaceDocAux_eq_fillDoc vals doc 0
  rw [List.drop_zero] at h
  rw [replace_placeholders, fillTokens, h]

theorem unusedValues_eq_drop (doc : List String) (vals : List PyVal) :
    unusedValues doc vals = vals.drop (docNumTokens doc) := by
  have h := replaceDocAux_eq_fillDoc vals doc 0
  rw [List.drop_zero] at h
  rw [unusedValues, h]
  rw [fillDoc_snd]
  simp

theorem fillGroups_congr (f g : Nat → String) :
    ∀ (gs : List (List Char)) (i : Nat),
      (∀ j, i ≤ j → j < i + gs.countP isPlaceholderRun → f j = g j) →
      fillGroups f i gs = fillGroups g i gs := by
  intro gs
  induction gs with
  | nil => intro i _; rfl
  | cons gr gs ih =>
    intro i hagree
    by_cases hg : isPlaceholderRun gr = true
    · have hcnt : (gr :: gs).countP isPlaceholderRun = gs.countP isPlaceholderRun + 1 := by
        rw [List.countP_cons, hg]; simp
      have hfi : f i = g i := by
        apply hagree i le_rfl
        rw [hcnt]; omega
      have hrec : fillGroups f (i + 1) gs = fillGroups g (i + 1) gs := by
        apply ih
        intro j hj1 hj2
        apply hagree j (Nat.le_of_succ_le hj1)
        rw [hcnt]; omega
      simp only [fillGroups, hg, if_true, hfi, hrec]
    · have hcnt : (gr :: gs).countP isPlaceholderRun = gs.countP isPlaceholderRun := by
        rw [List.countP_cons]; simp [hg]
      have hrec : fillGroups f i gs = fillGroups g i gs := by
        apply ih
        intro j hj1 hj2
        apply hagree j hj1
        rw [hcnt]; omega
      simp [fillGroups, hg, hrec]

theorem fillDoc_congr (f g : Nat → String) :
    ∀ (doc : List String) (i : Nat),
      (∀ j, i ≤ j → j < i + docNumTokens doc → f j = g j) →
      fillDoc f i doc = fillDoc g i doc := by
  intro doc
  induction doc with
  | nil => intro i _; rfl
  | cons s rest ih =>
    intro i hagree
    have hcnt : docNumTokens (s :: rest) = textTokens s + docNumTokens rest := by
      simp [docNumTokens]
    have hgr : fillGroups f i (splitRuns s.data) = fillGroups g i (splitRuns s.data) := by
      apply fillGroups_congr
      intro j hj1 hj2
      apply hagree j hj1
      rw [hcnt]
      have : (splitRuns s.data).countP isPlaceholderRun = textTokens s := rfl
      omega
    have hsnd : (fillGroups g i (splitRuns s.data)).2 = i + textTokens s := by
      rw [fillGroups_snd]; rfl
    have hrec : fillDoc f (i + textTokens s) rest = fillDoc g (i + textTokens s) rest := by
      apply ih
      intro j hj1 hj2
      apply hagree j (le_trans (Nat.le_add_right i (textTokens s)) hj1)
      rw [hcnt]; omega
    simp only [fillDoc, hgr, hsnd, hrec]

theorem fillTokens_congr (f g : Nat → String) (doc : List String)
    (h : ∀ j, j < docNumTokens doc → f j = g j) :
    fillTokens f doc = fillTokens g doc := by
  rw [fillTokens, fillTokens, fillDoc_congr f g doc 0]
  intro j hj1 hj2
  exact h j (by omega)


/-- C1: for every template document with `N` placeholder tokens (runs of
four or more underscores in the text elements, in document traversal
order) and every record with `M ≤ N` values, `replace_placeholders`
replaces the `i`-th token with the formatted `i`-th record value for every
`i < M`: the output is `fillTokens f doc` for a filler `f` that sends
every index `i < M` to `_format_value` of the `i`-th value. -/
theorem token_order_invariant (doc : List String) (vals : List PyVal)
    (h : vals.length ≤ docNumTokens doc) :
    ∃ f : Nat → String,
      (∀ i (hi : i < vals.length), f i = _format_value (vals.get ⟨i, hi⟩)) ∧
      replace_placeholders doc vals = fillTokens f doc := by
  refine ⟨tokenValue vals, ?_, replace_placeholders_eq_fillTokens doc vals⟩
  intro i hi
  rw [tokenValue, List.getD_eq_getElem _ _ hi]
  rfl

/-- Witness for C1 on a concrete two-token template and one-value record. -/
theorem token_order_invariant_witness :
    ([PyVal.str "A"]).length ≤ docNumTokens ["x ____ y ____"] ∧
    ∃ f : Nat → String,
      (∀ i (hi : i < ([PyVal.str "A"]).length),
        f i = _format_value (([PyVal.str "A"]).get ⟨i, hi⟩)) ∧
      replace_placeholders ["x ____ y ____"] [PyVal.str "A"] = fillTokens f ["x ____ y ____"] :=
  ⟨by decide, token_order_invariant ["x ____ y ____"] [PyVal.str "A"] (by decide)⟩

/-- C2, counterexample: a five-underscore token with an empty record does
not remain as its literal placeholder text: `replace_placeholders` rewrites
it to the fixed four-underscore string. -/
theorem leftover_token_not_literal_cex :
    replace_placeholders ["_____"] [] = ["____"] ∧ "____" ≠ "_____" :=
  ⟨rfl, by decide⟩

/-- C2 as amended: with `M < N`, the tokens at positions `M, ..., N-1` are
each rewritten to the fixed four-underscore string `PLACEHOLDER = "____"`
(hence they remain their literal text exactly when the original token is
four underscores long), and no error is raised (the model is total). -/
theorem leftover_tokens_filled_with_default (doc : List String) (vals : List PyVal)
    (h : vals.length < docNumTokens doc) :
    ∃ f : Nat → String,
      (∀ i, vals.length ≤ i → f i = PLACEHOLDER) ∧
      replace_placeholders doc vals = fillTokens f doc := by
  refine ⟨tokenValue vals, ?_, replace_placeholders_eq_fillTokens doc vals⟩
  intro i hi
  rw [tokenValue, List.getD_eq_default _ _ hi]
  rfl

/-- Witness for the amended C2 on a concrete template with two tokens and
one record value. -/
theorem leftover_tokens_filled_with_default_witness :
    ([PyVal.str "B"]).length < docNumTokens ["______", "____"] ∧
    ∃ f : Nat → String,
      (∀ i, ([PyVal.str "B"]).length ≤ i → f i = PLACEHOLDER) ∧
      replace_placeholders ["______", "____"] [PyVal.str "B"] = fillTokens f ["______", "____"] :=
  ⟨by decide, leftover_tokens_filled_with_default ["______", "____"] [PyVal.str "B"] (by decide)⟩

/-- C3: with `M > N` values, `replace_placeholders` consumes exactly the
first `N` record values in order (the unconsumed iterator state is
`vals.drop N`, so exactly `N` substitutions drew a value), the remaining
`M - N` values are never used (the output only depends on the first `N`
values), and no error is raised (the model is total). -/
theorem excess_values_unused (doc : List String) (vals : List PyVal)
    (h : docNumTokens doc < vals.length) :
    unusedValues doc vals = vals.drop (docNumTokens doc) ∧
    vals.length - (unusedValues doc vals).length = docNumTokens doc ∧
    replace_placeholders doc vals = replace_placeholders doc (vals.take (docNumTokens doc)) := by
  have h1 := unusedValues_eq_drop doc vals
  refine ⟨h1, ?_, ?_⟩
  · rw [h1, List.length_drop]
    omega
  · rw [replace_placeholders_eq_fillTokens, replace_placeholders_eq_fillTokens]
    apply fillTokens_congr
    intro j hj
    rw [tokenValue, tokenValue]
    congr 1
    rw [List.getD_eq_getElem?_getD, List.getD_eq_getElem?_getD, List.getElem?_take_of_lt hj]

/-- Witness for C3 on a concrete one-token template and two-value record. -/
theorem excess_values_unused_witness :
    docNumTokens ["v ____"] < ([PyVal.str "A", PyVal.str "B"]).length ∧
    unusedValues ["v ____"] [PyVal.str "A", PyVal.str "B"] =
      ([PyVal.str "A", PyVal.str "B"]).drop (docNumTokens ["v ____"]) ∧
    ([PyVal.str "A", PyVal.str "B"]).length -
        (unusedValues ["v ____"] [PyVal.str "A", PyVal.str "B"]).length =
      docNumTokens ["v ____"] ∧
    replace_placeholders ["v ____"] [PyVal.str "A", PyVal.str "B"] =
      replace_placeholders ["v ____"] (([PyVal.str "A", PyVal.str "B"]).take (docNumTokens ["v ____"])) :=
  ⟨by decide, excess_values_unused ["v ____"] [PyVal.str "A", PyVal.str "B"] (by decide)⟩

/-- C9: `replace_placeholders` leaves every text element containing no run
of four or more consecutive underscores (no `RE_PLACEHOLDER` match)
completely unchanged, whatever the record values are. -/
theorem untouched_elements (doc : List String) (vals : List PyVal) (i : Nat)
    (h : hasPlaceholder (doc.getD i "") = false) :
    (replace_placeholders doc vals).getD i "" = doc.getD i "" := by
  induction doc generalizing vals i with
  | nil => simp [replace_placeholders, replaceDocAux]
  | cons s rest ih =>
    match i with
    | 0 =>
      have hs : hasPlaceholder s = false := by simpa using h
      simp [replace_placeholders, replaceDocAux, hs]
    | n + 1 =>
      have h' : hasPlaceholder (rest.getD n "") = false := by simpa using h
      by_cases hs : hasPlaceholder s = true
      · simp only [replace_placeholders, replaceDocAux, hs, if_true, List.getD_cons_succ]
        exact ih (subText vals s).2 n h'
      · simp only [replace_placeholders, replaceDocAux, hs, if_false, List.getD_cons_succ]
        exact ih vals n h'

/-- Witness for C9: the first element of a two-element document has only a
three-underscore run and survives filling verbatim. -/
theorem untouched_elements_witness :
    hasPlaceholder ((["___ a", "____ b"]).getD 0 "") = false ∧
    (replace_placeholders ["___ a", "____ b"] [PyVal.int 5]).getD 0 "" =
      (["___ a", "____ b"]).getD 0 "" :=
  ⟨by decide, untouched_elements ["___ a", "____ b"] [PyVal.int 5] 0 (by decide)⟩

/-- C10: once the record values are exhausted, every remaining matched
token is substituted with the fixed four-underscore string `PLACEHOLDER`,
regardless of how many underscores the original token contained; in
particular a seven-underscore token is rewritten to exactly four. -/
theorem exhausted_tokens_rewritten (doc : List String) (vals : List PyVal) :
    (∃ f : Nat → String,
      (∀ i, vals.length ≤ i → f i = PLACEHOLDER) ∧
      replace_placeholders doc vals = fillTokens f doc) ∧
    replace_placeholders ["_______"] [] = ["____"] := by
  constructor
  · refine ⟨tokenValue vals, ?_, replace_placeholders_eq_fillTokens doc vals⟩
    intro i hi
    rw [tokenValue, List.getD_eq_default _ _ hi]
    rfl
  · rfl

/-- Witness for C10 on a concrete document with an exhausted record. -/
theorem exhausted_tokens_rewritten_witness :
    (∃ f : Nat → String,
      (∀ i, ([] : List PyVal).length ≤ i → f i = PLACEHOLDER) ∧
      replace_placeholders ["_______"] [] = fillTokens f ["_______"]) ∧
    replace_placeholders ["_______"] [] = ["____"] :=
  exhausted_tokens_rewritten ["_______"] []

/-- C4: `_format_value` renders a mathematically integral float as the
plain integer string (no trailing `".0"`), renders a non-integral float
via its natural string form (the decimal expansion `pyFloatRepr`), and
renders `None` as the empty string. -/
theorem format_value_rendering :
    (∀ q : ℚ, q.den = 1 → _format_value (PyVal.float q) = toString q.num) ∧
    (∀ q : ℚ, q.den ≠ 1 → _format_value (PyVal.float q) = pyFloatRepr q) ∧
    _format_value PyVal.none = "" := by
  refine ⟨fun q hq => by simp [_format_value, hq], fun q hq => by simp [_format_value, hq], rfl⟩

/-- Witness for C4: `2024.0` renders as `"2024"` and `2024.5` as
`"2024.5"`. -/
theorem format_value_rendering_witness :
    _format_value (PyVal.float sampleIntegralFloat) = "2024" ∧
    _format_value (PyVal.float sampleFractionalFloat) = "2024.5" := by
  constructor
  · rw [format_value_rendering.1 sampleIntegralFloat rfl]
    decide
  · rw [format_value_rendering.2.1 sampleFractionalFloat (by decide)]
    decide

theorem findIdx?_beq_self (a : String) :
    ∀ l : List String, a ∈ l →
      ∃ k, l.findIdx? (· == a) = some k ∧ l.getD k "" = a := by
  intro l
  induction l with
  | nil => intro hmem; exact absurd hmem (List.not_mem_nil a)
  | cons b l ih =>
    intro hmem
    by_cases hb : (b == a) = true
    · refine ⟨0, ?_, ?_⟩
      · simp [List.findIdx?_cons, hb]
      · simpa using (eq_of_beq hb)
    · have hmem' : a ∈ l := by
        rcases List.mem_cons.mp hmem with h1 | h1
        · exact absurd (by simp [h1]) hb
        · exact h1
      obtain ⟨k, hk1, hk2⟩ := ih hmem'
      refine ⟨k + 1, ?_, ?_⟩
      · simp [List.findIdx?_cons, hb, hk1]
      · simpa using hk2

theorem lookupAll_of_mem (cells : List String) :
    ∀ hs : List String, (∀ h ∈ hs, h ∈ cells) →
      ∃ is : List Nat, lookupAll cells hs = some is ∧ is.length = hs.length ∧
        ∀ i, i < hs.length → cells.getD (is.getD i 0) "" = hs.getD i "" := by
  intro hs
  induction hs with
  | nil => intro _; exact ⟨[], rfl, rfl, fun i hi => absurd hi (by simp)⟩
  | cons hd hs ih =>
    intro hall
    obtain ⟨k, hk1, hk2⟩ := findIdx?_beq_self hd cells (hall hd (List.mem_cons_self hd hs))
    obtain ⟨is, his1, his2, his3⟩ := ih (fun x hx => hall x (List.mem_cons_of_mem hd hx))
    refine ⟨k :: is, ?_, ?_, ?_⟩
    · simp [lookupAll, hk1, his1]
    · simp [his2]
    · intro i hi
      match i with
      | 0 => simpa using hk2
      | n + 1 =>
        have hn : n < hs.length := by simpa using hi
        simpa using his3 n hn

theorem find_headers_skip :
    ∀ (pre rows : List (List PyVal)), (∀ r ∈ pre, headerIdxs r = Option.none) →
      _find_header_indexes (pre ++ rows) = _find_header_indexes rows := by
  intro pre
  induction pre with
  | nil => intro rows _; rfl
  | cons r pre ih =>
    intro rows hall
    have hr := hall r (List.mem_cons_self r pre)
    simp [_find_header_indexes, hr, ih rows (fun x hx => hall x (List.mem_cons_of_mem r hx))]

theorem find_headers_error :
    ∀ rows : List (List PyVal), (∀ r ∈ rows, headerIdxs r = Option.none) →
      _find_header_indexes rows = .error missingColumnsMsg := by
  intro rows
  induction rows with
  | nil => intro _; rfl
  | cons r rs ih =>
    intro hall
    have hr := hall r (List.mem_cons_self r rs)
    simp [_find_header_indexes, hr, ih (fun x hx => hall x (List.mem_cons_of_mem r hx))]

/-- C6: if the first matching row of the spreadsheet (every earlier row
fails the lookup) contains all required header names — whitespace-trimmed,
exact string match, in arbitrary column order — then
`_find_header_indexes` returns column indexes resolving each required
header by name: the cell at the `i`-th returned index reads exactly the
`i`-th required header, and iteration resumes at the first data row. -/
theorem header_resolution_by_name (pre : List (List PyVal)) (row : List PyVal)
    (rest : List (List PyVal))
    (hpre : ∀ r ∈ pre, headerIdxs r = Option.none)
    (hrow : ∀ h ∈ REQUIRED_HEADERS, h ∈ row.map cellStr) :
    ∃ idxs : List Nat,
      _find_header_indexes (pre ++ row :: rest) = .ok (idxs, rest) ∧
      idxs.length = REQUIRED_HEADERS.length ∧
      ∀ i, i < REQUIRED_HEADERS.length →
        (row.map cellStr).getD (idxs.getD i 0) "" = REQUIRED_HEADERS.getD i "" := by
  obtain ⟨is, h1, h2, h3⟩ := lookupAll_of_mem (row.map cellStr) REQUIRED_HEADERS hrow
  refine ⟨is, ?_, h2, h3⟩
  rw [find_headers_skip pre (row :: rest) hpre]
  simp [_find_header_indexes, headerIdxs, h1]

/-- Witness for C6: a junk first row, then the five required headers in
scrambled column order (one with surrounding whitespace). -/
theorem header_resolution_by_name_witness :
    (∀ r ∈ [[PyVal.str "junk"]], headerIdxs r = Option.none) ∧
    (∀ h ∈ REQUIRED_HEADERS,
      h ∈ ([PyVal.str "עיר", PyVal.str "שנים", PyVal.str " שם העסק שם ",
            PyVal.str "כתובת", PyVal.str "סכום"]).map cellStr) ∧
    ∃ idxs : List Nat,
      _find_header_indexes ([[PyVal.str "junk"]] ++
          [PyVal.str "עיר", PyVal.str "שנים", PyVal.str " שם העסק שם ",
           PyVal.str "כתובת", PyVal.str "סכום"] :: [[PyVal.int 9]]) = .ok (idxs, [[PyVal.int 9]]) ∧
      idxs.length = REQUIRED_HEADERS.length ∧
      ∀ i, i < REQUIRED_HEADERS.length →
        (([PyVal.str "עיר", PyVal.str "שנים", PyVal.str " שם העסק שם ",
           PyVal.str "כתובת", PyVal.str "סכום"]).map cellStr).getD (idxs.getD i 0) "" =
          REQUIRED_HEADERS.getD i "" :=
  ⟨by decide, by decide,
    header_resolution_by_name [[PyVal.str "junk"]]
      [PyVal.str "עיר", PyVal.str "שנים", PyVal.str " שם העסק שם ",
       PyVal.str "כתובת", PyVal.str "סכום"] [[PyVal.int 9]] (by decide) (by decide)⟩

/-- C7, counterexample: in a spreadsheet whose only row carries four of the
five required headers (only `"שנים"` is absent), the failure message is the
fixed string joining ALL required headers — it names `"עיר"`, a header that
was present — so the message does not name exactly the absent headers. -/
theorem missing_columns_message_cex :
    _find_header_indexes
        [[PyVal.str "שם העסק שם", PyVal.str "עיר", PyVal.str "כתובת", PyVal.str "סכום"]] =
      .error missingColumnsMsg ∧
    missingColumnsMsg = "Missing columns: שם העסק שם, עיר, כתובת, סכום, שנים" ∧
    "עיר" ∈ ([PyVal.str "שם העסק שם", PyVal.str "עיר", PyVal.str "כתובת",
              PyVal.str "סכום"]).map cellStr ∧
    "שנים" ∉ ([PyVal.str "שם העסק שם", PyVal.str "עיר", PyVal.str "כתובת",
              PyVal.str "סכום"]).map cellStr :=
  ⟨rfl, by decide, by decide, by decide⟩

/-- C7 as amended: when no spreadsheet row resolves all required headers,
the row source fails before any document is generated (`process_documents`
propagates the error and produces nothing), and the failure message is the
`"Missing columns"` message listing all required header names — not only
the absent ones. -/
theorem missing_headers_fail (template : List String) (rows : List (List PyVal))
    (h : ∀ r ∈ rows, headerIdxs r = Option.none) :
    _find_header_indexes rows = .error missingColumnsMsg ∧
    process_documents template rows = .error missingColumnsMsg := by
  have h1 := find_headers_error rows h
  refine ⟨h1, ?_⟩
  unfold process_documents
  rw [h1]

/-- Witness for the amended C7 on a one-row spreadsheet missing a header. -/
theorem missing_headers_fail_witness :
    (∀ r ∈ [[PyVal.str "עיר"]], headerIdxs r = Option.none) ∧
    _find_header_indexes [[PyVal.str "עיר"]] = .error missingColumnsMsg ∧
    process_documents ["____"] [[PyVal.str "עיר"]] = .error missingColumnsMsg :=
  ⟨by decide, missing_headers_fail ["____"] [[PyVal.str "עיר"]] (by decide)⟩

/-- C5, counterexample: a row whose five resolved field values are all the
empty string — every field renders as `""`, i.e. all fields are empty —
still passes the `any(v is not None)` test and generates a document (named
just `".docx"`). Only rows whose resolved values are all `None` are
skipped. -/
theorem empty_string_row_generates_doc_cex :
    rowTask ["t"] [0, 1, 2, 3, 4] (List.replicate 5 (PyVal.str "")) = some (".docx", ["t"]) ∧
    (resolveRow [0, 1, 2, 3, 4] (List.replicate 5 (PyVal.str ""))).all
      (fun v => _format_value v == "") = true :=
  ⟨rfl, by decide⟩

/-- C5 as amended: for every row whose resolved field values are all
absent (`None`), `process_documents` generates no output document for that
row: its generation task is never submitted. -/
theorem all_absent_row_skipped (template : List String) (idxs : List Nat) (row : List PyVal)
    (h : ∀ v ∈ resolveRow idxs row, v = PyVal.none) :
    rowTask template idxs row = Option.none := by
  have hany : (resolveRow idxs row).any (fun v => decide (v ≠ PyVal.none)) = false := by
    rw [List.any_eq_false]
    intro v hv
    simp [h v hv]
  simp only [rowTask, hany]
  rfl

/-- Witness for the amended C5: an all-`None` row (one field even out of
range) yields no task. -/
theorem all_absent_row_skipped_witness :
    (∀ v ∈ resolveRow [0, 1, 2] [PyVal.none, PyVal.none], v = PyVal.none) ∧
    rowTask ["____"] [0, 1, 2] [PyVal.none, PyVal.none] = Option.none :=
  ⟨by decide, all_absent_row_skipped ["____"] [0, 1, 2] [PyVal.none, PyVal.none] (by decide)⟩

/-- C8: a row shorter than the resolved column indexes does not make
`process_documents` fail: every out-of-range field is resolved to `None`
(padding the row with `None` cells changes nothing), and processing
continues normally. -/
theorem short_rows_tolerated (template : List String) (idxs : List Nat)
    (row : List PyVal) (k : Nat) :
    rowTask template idxs (row ++ List.replicate k PyVal.none) = rowTask template idxs row ∧
    (∀ i ∈ idxs, row.length ≤ i → row.getD i PyVal.none = PyVal.none) := by
  constructor
  · have hres : resolveRow idxs (row ++ List.replicate k PyVal.none) = resolveRow idxs row := by
      rw [resolveRow, resolveRow]
      apply List.map_congr_left
      intro i _
      rw [List.getD_eq_getElem?_getD, List.getD_eq_getElem?_getD, List.getElem?_append]
      by_cases hlt : i < row.length
      · rw [if_pos hlt]
      · rw [if_neg hlt]
        push_neg at hlt
        rw [List.getElem?_replicate, List.getElem?_eq_none hlt]
        by_cases h2 : i - row.length < k
        · simp [h2]
        · simp [h2]
    rw [rowTask, rowTask, hres]
  · intro i _ hlen
    exact List.getD_eq_default _ _ hlen

/-- Witness for C8: index 2 is out of range for a one-cell row; padding
with `None` cells gives the same task. -/
theorem short_rows_tolerated_witness :
    rowTask ["__"] [0, 2] ([PyVal.str "a"] ++ List.replicate 2 PyVal.none) =
      rowTask ["__"] [0, 2] [PyVal.str "a"] ∧
    (∀ i ∈ [0, 2], ([PyVal.str "a"]).length ≤ i →
      ([PyVal.str "a"]).getD i PyVal.none = PyVal.none) :=
  short_rows_tolerated ["__"] [0, 2] [PyVal.str "a"] 2
